import Mathlib

/-!
Verification development for the `concur` .ICO/.CUR generator
(src/src/concur_app.cpp).

The file shallowly embeds the CLI/plumbing layer of the tool:

* `Arg` models one processed command-line argument, already tokenized by the
  `be::cli` processor, carrying the numeric value a bounded parse would
  produce.  Numeric bounds checks (`util::parse_bounded_numeric_string`,
  which throws when a value lies outside the given bounds and whose
  implementation lives outside this repository) are modelled as explicit
  range tests that abort processing, matching the catch blocks that set
  `status_ = 2`.
* `CtorState` models the data members of `ConcurApp` together with the
  constructor locals (`hotspot`, `show_help`, `show_version`).  The local
  `glm::vec2 hotspot` is default-constructed in the source, so its initial
  value is threaded as a parameter `h0`.
* `assocUpdate` / `assocLookup` model `std::map::operator[]` assignment and
  lookup: one entry per key, assignment to an existing key overwrites its
  mapped value.
* `runArgs` models `proc(argc, argv)`: arguments are processed left to
  right, and a thrown exception (modelled as `Except.error`) stops
  processing with the member state as mutated so far; the surrounding
  catch blocks set status 2.
* `World` and `runApp` model `ConcurApp::operator()` over an abstract
  filesystem: path existence / regular-file queries, an optional
  filesystem exception while iterating inputs (caught as status 4) and an
  optional filesystem exception at the start of the output-path section
  (caught as status 1).  Filesystem side effects are recorded as an `Eff`
  trace.
-/

namespace Concur

/-- Encoding hint attached to each input path (`input_type` in the source):
`-i` = automatic, `-p` = png, `-b` = bitmap. -/
inductive InputType
  | automatic
  | png
  | bitmap
deriving DecidableEq, Repr

/-- A normalized cursor hotspot, the pair held by the `glm::vec2 hotspot`
constructor local.  The C++ value is a pair of `F32`; the numeric values the
tool accepts and stores are modelled as rationals. -/
abbrev Hotspot := ℚ × ℚ

/-- `std::map::operator[]` followed by assignment: if the key is present its
mapped value is replaced, otherwise a new entry is added. -/
def assocUpdate {α β : Type} [DecidableEq α] : List (α × β) → α → β → List (α × β)
  | [], k, v => [(k, v)]
  | (k', v') :: rest, k, v =>
      if k' = k then (k, v) :: rest else (k', v') :: assocUpdate rest k v

/-- `std::map::find`-style lookup on the association list. -/
def assocLookup {α β : Type} [DecidableEq α] : List (α × β) → α → Option β
  | [], _ => none
  | (k', v') :: rest, k => if k' = k then some v' else assocLookup rest k

/-- One command-line argument, as dispatched by the `be::cli` processor to
the handlers registered in `ConcurApp::ConcurApp`.  Numeric arguments carry
the value their string would parse to. -/
inductive Arg
  | inputAuto (path : String)
  | inputPng (path : String)
  | inputBmp (path : String)
  | hotspotX (v : ℚ)
  | hotspotY (v : ℚ)
  | size (n : ℕ)
  | outputArg (s : String)
  | helpOpt
  | versionOpt
deriving DecidableEq, Repr

/-- The `ConcurApp` members (`inputs_`, `output_sizes_`, `output_path_`,
`status_`) together with the constructor locals (`hotspot`, `show_help`,
`show_version`). -/
structure CtorState where
  inputs : List (String × InputType)
  hotspot : Hotspot
  outputSizes : List (ℕ × Hotspot)
  outputPath : Option String
  showHelp : Bool
  showVersion : Bool
  status : ℕ
deriving DecidableEq, Repr

/-- The state at entry of `ConcurApp::ConcurApp`, with the default-constructed
`glm::vec2 hotspot` carried as the parameter `h0`. -/
def initState (h0 : Hotspot) : CtorState :=
  { inputs := []
    hotspot := h0
    outputSizes := []
    outputPath := none
    showHelp := false
    showVersion := false
    status := 0 }

/-- One argument handler.  `Except.error` models a thrown exception:
`parse_bounded_numeric_string` throwing on an out-of-range value (`-x`,
`-y` with bounds 0..1, `-s` with bounds 1..256), or the processor rejecting
a second positional argument (only position 0 has a handler). -/
def argStep (st : CtorState) (a : Arg) : Except Unit CtorState :=
  match a with
  | .inputAuto p => .ok { st with inputs := assocUpdate st.inputs p .automatic }
  | .inputPng p => .ok { st with inputs := assocUpdate st.inputs p .png }
  | .inputBmp p => .ok { st with inputs := assocUpdate st.inputs p .bitmap }
  | .hotspotX v =>
      if 0 ≤ v ∧ v ≤ 1 then .ok { st with hotspot := (v, st.hotspot.2) }
      else .error ()
  | .hotspotY v =>
      if 0 ≤ v ∧ v ≤ 1 then .ok { st with hotspot := (st.hotspot.1, v) }
      else .error ()
  | .size n =>
      if 1 ≤ n ∧ n ≤ 256 then
        .ok { st with outputSizes := assocUpdate st.outputSizes n st.hotspot }
      else .error ()
  | .outputArg s =>
      match st.outputPath with
      | none => .ok { st with outputPath := some s }
      | some _ => .error ()
  | .helpOpt => .ok { st with showHelp := true }
  | .versionOpt => .ok { st with showVersion := true }

/-- `proc(argc, argv)`: process arguments left to right; a thrown exception
stops processing and the catch blocks set `status_ = 2`.  Returns the member
state as mutated so far and the status contribution (0 or 2). -/
def runArgs (st : CtorState) : List Arg → CtorState × ℕ
  | [] => (st, 0)
  | a :: rest =>
      match argStep st a with
      | .ok st' => runArgs st' rest
      | .error _ => (st, 2)

/-- Whole constructor body: argument processing, then the
no-output-path fallback that turns on help and version display and sets
status 1 (src/src/concur_app.cpp lines 167-171). -/
def construct (h0 : Hotspot) (args : List Arg) : CtorState :=
  let r := runArgs (initState h0) args
  if r.2 ≠ 0 then { r.1 with status := 2 }
  else if r.1.showHelp = false ∧ r.1.showVersion = false ∧ r.1.outputPath = none then
    { r.1 with showHelp := true, showVersion := true, status := 1 }
  else r.1

/-- Abstract filesystem as seen by `ConcurApp::operator()`. `inputFsError`
models `fs::exists`/`fs::is_regular_file` throwing `fs::filesystem_error`
at the first input (caught with status 4); `outputFsError` models
`fs::absolute` throwing at the start of the output section (caught with
status 1). -/
structure World where
  pathExists : String → Bool
  isRegularFile : String → Bool
  parentExists : String → Bool
  absolutize : String → String
  inputFsError : Bool
  outputFsError : Bool

/-- Filesystem-visible actions of `ConcurApp::operator()`, recorded as a
trace. -/
inductive Eff
  | checkInput (p : String)
  | reportInputError (p : String)
  | checkOutput (p : String)
  | createDirs (p : String)
  | logOutputPath (p : String)
deriving DecidableEq, Repr

/-- A path that fails the input validation: missing, or not a regular
file (both branches set `status_ = 3` and log an error). -/
def badInput (w : World) (p : String) : Bool :=
  !w.pathExists p || !w.isRegularFile p

/-- The input validation loop (src/src/concur_app.cpp lines 239-256): each
input path is checked; a bad path sets status 3 and logs an error, and the
loop continues with the next path. -/
def inputLoop (w : World) : List (String × InputType) → ℕ → ℕ × List Eff
  | [], s => (s, [])
  | (p, _) :: rest, s =>
      let s' := if badInput w p then 3 else s
      let e := if badInput w p then [Eff.checkInput p, Eff.reportInputError p]
               else [Eff.checkInput p]
      let r := inputLoop w rest s'
      (r.1, e ++ r.2)

/-- The output-path section (src/src/concur_app.cpp lines 290-313):
absolutize the output path; if it exists and is not a regular file set
status 5; else if its parent is missing create directories; finally log the
output path.  A filesystem exception (modelled at `fs::absolute`) is caught
with status 1.  Returns (status, stored output path, effect trace). -/
def outputSection (w : World) (out : String) (s : ℕ) : ℕ × String × List Eff :=
  if w.outputFsError then (1, out, [])
  else
    let o := w.absolutize out
    if w.pathExists o then
      if w.isRegularFile o then (s, o, [Eff.checkOutput o, Eff.logOutputPath o])
      else (5, o, [Eff.checkOutput o, Eff.logOutputPath o])
    else
      if w.parentExists o then (s, o, [Eff.checkOutput o, Eff.logOutputPath o])
      else (s, o, [Eff.checkOutput o, Eff.createDirs o, Eff.logOutputPath o])

/-- `ConcurApp::operator()`: early return of a nonzero constructor status,
early return when no output path was given, otherwise the input loop
followed by the output-path section.  Returns the exit status, the final
member state, and the filesystem effect trace. -/
def runApp (w : World) (st : CtorState) : ℕ × CtorState × List Eff :=
  if st.status ≠ 0 then (st.status, st, [])
  else
    match st.outputPath with
    | none => (st.status, st, [])
    | some out =>
        let inr := if w.inputFsError then ((4 : ℕ), ([] : List Eff))
                   else inputLoop w st.inputs 0
        let outr := outputSection w out inr.1
        (outr.1, { st with outputPath := some outr.2.1, status := outr.1 },
         inr.2 ++ outr.2.2)

/-- Spec-side reading of the stateful hotspot: the value in effect after a
list of arguments is the most recent value set by a hotspot option, starting
from `h0`. -/
def specCurrentHotspot (h0 : Hotspot) : List Arg → Hotspot
  | [] => h0
  | a :: rest =>
      specCurrentHotspot
        (match a with
         | .hotspotX v => (v, h0.2)
         | .hotspotY v => (h0.1, v)
         | _ => h0) rest

theorem assocLookup_update_self {α β : Type} [DecidableEq α]
    (m : List (α × β)) (k : α) (v : β) :
    assocLookup (assocUpdate m k v) k = some v := by
  induction m with
  | nil => simp [assocUpdate, assocLookup]
  | cons kv rest ih =>
      obtain ⟨a, b⟩ := kv
      by_cases ha : a = k
      · simp [assocUpdate, ha, assocLookup]
      · simp [assocUpdate, ha, assocLookup, ih]

theorem assocLookup_update_ne {α β : Type} [DecidableEq α]
    (m : List (α × β)) {k k' : α} (v : β) (h : k' ≠ k) :
    assocLookup (assocUpdate m k' v) k = assocLookup m k := by
  induction m with
  | nil => simp [assocUpdate, assocLookup, h]
  | cons kv rest ih =>
      obtain ⟨a, b⟩ := kv
      by_cases ha : a = k'
      · subst ha
        simp [assocUpdate, assocLookup, h]
      · simp [assocUpdate, ha, assocLookup, ih]

theorem mem_keys_assocUpdate {α β : Type} [DecidableEq α]
    (m : List (α × β)) (k x : α) (v : β) :
    x ∈ (assocUpdate m k v).map Prod.fst ↔ x = k ∨ x ∈ m.map Prod.fst := by
  induction m with
  | nil => simp [assocUpdate]
  | cons kv rest ih =>
      obtain ⟨a, b⟩ := kv
      by_cases ha : a = k
      · subst ha
        simp [assocUpdate]
      · simp [assocUpdate, ha, ih]
        tauto

theorem assocUpdate_keys_nodup {α β : Type} [DecidableEq α]
    (m : List (α × β)) (k : α) (v : β)
    (h : (m.map Prod.fst).Nodup) :
    ((assocUpdate m k v).map Prod.fst).Nodup := by
  induction m with
  | nil => simp [assocUpdate]
  | cons kv rest ih =>
      obtain ⟨a, b⟩ := kv
      simp only [List.map_cons, List.nodup_cons] at h
      by_cases ha : a = k
      · subst ha
        simpa [assocUpdate] using h
      · simp only [assocUpdate, ha, if_false, List.map_cons, List.nodup_cons]
        refine ⟨fun hmem => ?_, ih h.2⟩
        rcases (mem_keys_assocUpdate rest k a v).mp hmem with h1 | h2
        · exact ha h1
        · exact h.1 h2

theorem runArgs_append (xs ys : List Arg) : ∀ st : CtorState,
    runArgs st (xs ++ ys) =
      if (runArgs st xs).2 = 0 then runArgs (runArgs st xs).1 ys
      else runArgs st xs := by
  induction xs with
  | nil => intro st; simp [runArgs]
  | cons a rest ih =>
      intro st
      simp only [List.cons_append, runArgs]
      cases h : argStep st a with
      | ok st' => simp [ih st']
      | error e => simp [runArgs, h]

theorem runArgs_hotspot (args : List Arg) : ∀ st : CtorState,
    (runArgs st args).2 = 0 →
    (runArgs st args).1.hotspot = specCurrentHotspot st.hotspot args := by
  induction args with
  | nil => intro st _; simp [runArgs, specCurrentHotspot]
  | cons a rest ih =>
      intro st hok
      cases a with
      | inputAuto p =>
          simp only [runArgs, argStep] at hok ⊢
          simp only [specCurrentHotspot]
          exact ih _ hok
      | inputPng p =>
          simp only [runArgs, argStep] at hok ⊢
          simp only [specCurrentHotspot]
          exact ih _ hok
      | inputBmp p =>
          simp only [runArgs, argStep] at hok ⊢
          simp only [specCurrentHotspot]
          exact ih _ hok
      | hotspotX v =>
          by_cases hb : 0 ≤ v ∧ v ≤ 1
          · simp only [runArgs, argStep, if_pos hb] at hok ⊢
            simp only [specCurrentHotspot]
            exact ih _ hok
          · simp [runArgs, argStep, if_neg hb] at hok
      | hotspotY v =>
          by_cases hb : 0 ≤ v ∧ v ≤ 1
          · simp only [runArgs, argStep, if_pos hb] at hok ⊢
            simp only [specCurrentHotspot]
            exact ih _ hok
          · simp [runArgs, argStep, if_neg hb] at hok
      | size n =>
          by_cases hb : 1 ≤ n ∧ n ≤ 256
          · simp only [runArgs, argStep, if_pos hb] at hok ⊢
            simp only [specCurrentHotspot]
            exact ih _ hok
          · simp [runArgs, argStep, if_neg hb] at hok
      | outputArg s =>
          cases hp : st.outputPath with
          | none =>
              simp only [runArgs, argStep, hp] at hok ⊢
              simp only [specCurrentHotspot]
              exact ih _ hok
          | some o => simp [runArgs, argStep, hp] at hok
      | helpOpt =>
          simp only [runArgs, argStep] at hok ⊢
          simp only [specCurrentHotspot]
          exact ih _ hok
      | versionOpt =>
          simp only [runArgs, argStep] at hok ⊢
          simp only [specCurrentHotspot]
          exact ih _ hok

theorem runArgs_sizes_nodup (args : List Arg) : ∀ st : CtorState,
    (st.outputSizes.map Prod.fst).Nodup →
    (((runArgs st args).1.outputSizes).map Prod.fst).Nodup := by
  induction args with
  | nil => intro st h; simpa [runArgs] using h
  | cons a rest ih =>
      intro st h
      cases a with
      | inputAuto p => simp only [runArgs, argStep]; exact ih _ h
      | inputPng p => simp only [runArgs, argStep]; exact ih _ h
      | inputBmp p => simp only [runArgs, argStep]; exact ih _ h
      | hotspotX v =>
          by_cases hb : 0 ≤ v ∧ v ≤ 1
          · simp only [runArgs, argStep, if_pos hb]; exact ih _ h
          · simpa [runArgs, argStep, if_neg hb] using h
      | hotspotY v =>
          by_cases hb : 0 ≤ v ∧ v ≤ 1
          · simp only [runArgs, argStep, if_pos hb]; exact ih _ h
          · simpa [runArgs, argStep, if_neg hb] using h
      | size n =>
          by_cases hb : 1 ≤ n ∧ n ≤ 256
          · simp only [runArgs, argStep, if_pos hb]
            exact ih _ (assocUpdate_keys_nodup _ _ _ h)
          · simpa [runArgs, argStep, if_neg hb] using h
      | outputArg s =>
          cases hp : st.outputPath with
          | none => simp only [runArgs, argStep, hp]; exact ih _ h
          | some o => simpa [runArgs, argStep, hp] using h
      | helpOpt => simp only [runArgs, argStep]; exact ih _ h
      | versionOpt => simp only [runArgs, argStep]; exact ih _ h

theorem runArgs_inputs_nodup (args : List Arg) : ∀ st : CtorState,
    (st.inputs.map Prod.fst).Nodup →
    (((runArgs st args).1.inputs).map Prod.fst).Nodup := by
  induction args with
  | nil => intro st h; simpa [runArgs] using h
  | cons a rest ih =>
      intro st h
      cases a with
      | inputAuto p =>
          simp only [runArgs, argStep]
          exact ih _ (assocUpdate_keys_nodup _ _ _ h)
      | inputPng p =>
          simp only [runArgs, argStep]
          exact ih _ (assocUpdate_keys_nodup _ _ _ h)
      | inputBmp p =>
          simp only [runArgs, argStep]
          exact ih _ (assocUpdate_keys_nodup _ _ _ h)
      | hotspotX v =>
          by_cases hb : 0 ≤ v ∧ v ≤ 1
          · simp only [runArgs, argStep, if_pos hb]; exact ih _ h
          · simpa [runArgs, argStep, if_neg hb] using h
      | hotspotY v =>
          by_cases hb : 0 ≤ v ∧ v ≤ 1
          · simp only [runArgs, argStep, if_pos hb]; exact ih _ h
          · simpa [runArgs, argStep, if_neg hb] using h
      | size n =>
          by_cases hb : 1 ≤ n ∧ n ≤ 256
          · simp only [runArgs, argStep, if_pos hb]; exact ih _ h
          · simpa [runArgs, argStep, if_neg hb] using h
      | outputArg s =>
          cases hp : st.outputPath with
          | none => simp only [runArgs, argStep, hp]; exact ih _ h
          | some o => simpa [runArgs, argStep, hp] using h
      | helpOpt => simp only [runArgs, argStep]; exact ih _ h
      | versionOpt => simp only [runArgs, argStep]; exact ih _ h

theorem runArgs_sizes_lookup_preserved (post : List Arg) :
    ∀ (st : CtorState) (n : ℕ), (∀ a ∈ post, a ≠ Arg.size n) →
    assocLookup (runArgs st post).1.outputSizes n = assocLookup st.outputSizes n := by
  induction post with
  | nil => intro st n _; simp [runArgs]
  | cons a rest ih =>
      intro st n hne
      have hrest : ∀ b ∈ rest, b ≠ Arg.size n :=
        fun b hb => hne b (List.mem_cons_of_mem _ hb)
      cases a with
      | size m =>
          have hmn : m ≠ n := by
            intro hEq
            exact hne (Arg.size m) (List.mem_cons_self _ _) (by rw [hEq])
          by_cases hb : 1 ≤ m ∧ m ≤ 256
          · simp only [runArgs, argStep, if_pos hb]
            rw [ih _ _ hrest]
            exact assocLookup_update_ne _ _ hmn
          · simp [runArgs, argStep, if_neg hb]
      | inputAuto p => simp only [runArgs, argStep]; exact ih _ _ hrest
      | inputPng p => simp only [runArgs, argStep]; exact ih _ _ hrest
      | inputBmp p => simp only [runArgs, argStep]; exact ih _ _ hrest
      | hotspotX v =>
          by_cases hb : 0 ≤ v ∧ v ≤ 1
          · simp only [runArgs, argStep, if_pos hb]; exact ih _ _ hrest
          · simp [runArgs, argStep, if_neg hb]
      | hotspotY v =>
          by_cases hb : 0 ≤ v ∧ v ≤ 1
          · simp only [runArgs, argStep, if_pos hb]; exact ih _ _ hrest
          · simp [runArgs, argStep, if_neg hb]
      | outputArg s =>
          cases hp : st.outputPath with
          | none => simp only [runArgs, argStep, hp]; exact ih _ _ hrest
          | some o => simp [runArgs, argStep, hp]
      | helpOpt => simp only [runArgs, argStep]; exact ih _ _ hrest
      | versionOpt => simp only [runArgs, argStep]; exact ih _ _ hrest

theorem runArgs_inputs_lookup_preserved (post : List Arg) :
    ∀ (st : CtorState) (p : String),
    (∀ a ∈ post, a ≠ Arg.inputAuto p ∧ a ≠ Arg.inputPng p ∧ a ≠ Arg.inputBmp p) →
    assocLookup (runArgs st post).1.inputs p = assocLookup st.inputs p := by
  induction post with
  | nil => intro st p _; simp [runArgs]
  | cons a rest ih =>
      intro st p hne
      have hrest : ∀ b ∈ rest,
          b ≠ Arg.inputAuto p ∧ b ≠ Arg.inputPng p ∧ b ≠ Arg.inputBmp p :=
        fun b hb => hne b (List.mem_cons_of_mem _ hb)
      have hhead := hne a (List.mem_cons_self _ _)
      cases a with
      | inputAuto q =>
          have hq : q ≠ p := by
            intro hEq; exact hhead.1 (by rw [hEq])
          simp only [runArgs, argStep]
          rw [ih _ _ hrest]
          exact assocLookup_update_ne _ _ hq
      | inputPng q =>
          have hq : q ≠ p := by
            intro hEq; exact hhead.2.1 (by rw [hEq])
          simp only [runArgs, argStep]
          rw [ih _ _ hrest]
          exact assocLookup_update_ne _ _ hq
      | inputBmp q =>
          have hq : q ≠ p := by
            intro hEq; exact hhead.2.2 (by rw [hEq])
          simp only [runArgs, argStep]
          rw [ih _ _ hrest]
          exact assocLookup_update_ne _ _ hq
      | hotspotX v =>
          by_cases hb : 0 ≤ v ∧ v ≤ 1
          · simp only [runArgs, argStep, if_pos hb]; exact ih _ _ hrest
          · simp [runArgs, argStep, if_neg hb]
      | hotspotY v =>
          by_cases hb : 0 ≤ v ∧ v ≤ 1
          · simp only [runArgs, argStep, if_pos hb]; exact ih _ _ hrest
          · simp [runArgs, argStep, if_neg hb]
      | size n =>
          by_cases hb : 1 ≤ n ∧ n ≤ 256
          · simp only [runArgs, argStep, if_pos hb]; exact ih _ _ hrest
          · simp [runArgs, argStep, if_neg hb]
      | outputArg s =>
          cases hp : st.outputPath with
          | none => simp only [runArgs, argStep, hp]; exact ih _ _ hrest
          | some o => simp [runArgs, argStep, hp]
      | helpOpt => simp only [runArgs, argStep]; exact ih _ _ hrest
      | versionOpt => simp only [runArgs, argStep]; exact ih _ _ hrest

/-- Modelled from the spec: the container serialization is unimplemented in
the source (the `TODO serialize output images` / `TODO write ico/cur` marks
in `ConcurApp::operator()`); per the spec, a cursor directory entry encodes
one hotspot coordinate by scaling the normalized value in `[0,1]` to
`[0, edge_length-1]`, rounding to nearest and clamping to
`[0, edge_length-1]`. -/
def encodeHotspotCoord (edge : ℕ) (h : ℚ) : ℕ :=
  min (edge - 1) (round (h * ((edge : ℚ) - 1))).toNat

/-- Modelled from the spec: both hotspot coordinates of one cursor directory
entry. -/
def encodeHotspot (edge : ℕ) (hs : Hotspot) : ℕ × ℕ :=
  (encodeHotspotCoord edge hs.1, encodeHotspotCoord edge hs.2)

theorem inputLoop_status (w : World) (l : List (String × InputType)) : ∀ s : ℕ,
    (inputLoop w l s).1 = if l.any (fun pt => badInput w pt.1) then 3 else s := by
  induction l with
  | nil => intro s; simp [inputLoop]
  | cons qt rest ih =>
      intro s
      obtain ⟨q, t⟩ := qt
      by_cases hb : badInput w q
      · simp [inputLoop, hb, ih]
      · simp only [Bool.not_eq_true] at hb
        simp only [inputLoop, hb, if_false, Bool.false_eq_true, ih]
        rw [List.any_cons, hb, Bool.false_or]

theorem inputLoop_effects (w : World) (l : List (String × InputType)) : ∀ s : ℕ,
    (inputLoop w l s).2 =
      l.flatMap (fun pt =>
        if badInput w pt.1 then [Eff.checkInput pt.1, Eff.reportInputError pt.1]
        else [Eff.checkInput pt.1]) := by
  induction l with
  | nil => intro s; simp [inputLoop]
  | cons qt rest ih =>
      intro s
      obtain ⟨q, t⟩ := qt
      by_cases hb : badInput w q
      · simp [inputLoop, hb, ih]
      · simp [inputLoop, hb, ih]

theorem outputSection_status (w : World) (out : String) (s : ℕ)
    (hfe : w.outputFsError = false) :
    (outputSection w out s).1 =
      if w.pathExists (w.absolutize out) ∧ w.isRegularFile (w.absolutize out) = false
      then 5 else s := by
  simp only [outputSection, hfe, Bool.false_eq_true, if_false]
  by_cases he : w.pathExists (w.absolutize out)
  · by_cases hr : w.isRegularFile (w.absolutize out)
    · simp [he, hr]
    · simp [he, hr]
  · by_cases hp : w.parentExists (w.absolutize out)
    · simp [he, hp]
    · simp [he, hp]

theorem logOutputPath_mem_outputSection (w : World) (out : String) (s : ℕ)
    (hfe : w.outputFsError = false) :
    Eff.logOutputPath (w.absolutize out) ∈ (outputSection w out s).2.2 := by
  simp only [outputSection, hfe, Bool.false_eq_true, if_false]
  by_cases he : w.pathExists (w.absolutize out)
  · by_cases hr : w.isRegularFile (w.absolutize out)
    · simp [he, hr]
    · simp [he, hr]
  · by_cases hp : w.parentExists (w.absolutize out)
    · simp [he, hp]
    · simp [he, hp]

/-- Early return of `ConcurApp::operator()` (lines 223-225): a nonzero
constructor status is returned unchanged, the member state is untouched and
no filesystem action happens. -/
theorem runApp_early (w : World) (st : CtorState) (h : st.status ≠ 0) :
    runApp w st = (st.status, st, []) := by
  simp [runApp, h]

theorem runArgs_err_cases (args : List Arg) : ∀ st : CtorState,
    (runArgs st args).2 = 0 ∨ (runArgs st args).2 = 2 := by
  induction args with
  | nil => intro st; simp [runArgs]
  | cons a rest ih =>
      intro st
      cases h : argStep st a with
      | ok st' => simpa [runArgs, h] using ih st'
      | error e => simp [runArgs, h]

/-- The process exit status of one whole run: construction from the
argument list followed by `operator()`. -/
def exitStatus (h0 : Hotspot) (args : List Arg) (w : World) : ℕ :=
  (runApp w (construct h0 args)).1

theorem runApp_status_run (w : World) (st : CtorState) (out : String)
    (hst : st.status = 0) (hout : st.outputPath = some out) :
    (runApp w st).1 =
      (outputSection w out
        (if w.inputFsError then 4 else (inputLoop w st.inputs 0).1)).1 := by
  by_cases hife : w.inputFsError <;> simp [runApp, hst, hout, hife]

theorem runApp_effects_run (w : World) (st : CtorState) (out : String)
    (hst : st.status = 0) (hout : st.outputPath = some out)
    (hife : w.inputFsError = false) :
    (runApp w st).2.2 =
      (inputLoop w st.inputs 0).2 ++
        (outputSection w out (inputLoop w st.inputs 0).1).2.2 := by
  simp [runApp, hst, hout, hife]

/-- A world with no filesystem surprises: every path exists and is a
regular file, parents exist, absolutization is the identity, and no
filesystem call throws. -/
def wGood : World :=
  { pathExists := fun _ => true
    isRegularFile := fun _ => true
    parentExists := fun _ => true
    absolutize := fun s => s
    inputFsError := false
    outputFsError := false }

/-- Like `wGood` except the path "a" does not exist. -/
def wMissingA : World := { wGood with pathExists := fun s => !(s == "a") }

/-- Like `wGood` except a filesystem error is thrown while iterating the
inputs. -/
def wInputCrash : World := { wGood with inputFsError := true }

/-- Like `wGood` except the path "o" exists but is not a regular file. -/
def wOutputDir : World := { wGood with isRegularFile := fun s => !(s == "o") }

/-- C10: if construction (argument parsing) left a nonzero status,
`ConcurApp::operator()` returns that same status immediately: the member
state (inputs, sizes, output path) is returned unchanged and the
filesystem effect trace is empty, so nothing is examined, touched or
created. -/
theorem claim10_nonzero_status_early_return (w : World) (st : CtorState)
    (h : st.status ≠ 0) : runApp w st = (st.status, st, []) :=
  runApp_early w st h

/-- C10 witness: a state with parse-error status 2 is returned untouched
with no filesystem effects. -/
theorem claim10_witness :
    runApp wGood
      { inputs := [("a", InputType.automatic)], hotspot := (0, 0),
        outputSizes := [(16, (0, 0))], outputPath := some "o",
        showHelp := false, showVersion := false, status := 2 }
      = (2,
         { inputs := [("a", InputType.automatic)], hotspot := (0, 0),
           outputSizes := [(16, (0, 0))], outputPath := some "o",
           showHelp := false, showVersion := false, status := 2 },
         []) :=
  claim10_nonzero_status_early_return wGood _ (by decide)

theorem encodeHotspotCoord_zero (edge : ℕ) : encodeHotspotCoord edge 0 = 0 := by
  simp [encodeHotspotCoord]

theorem encodeHotspotCoord_one (edge : ℕ) : encodeHotspotCoord edge 1 = edge - 1 := by
  have h1 : ((1 : ℚ) * ((edge : ℚ) - 1)) = (((edge : ℤ) - 1 : ℤ) : ℚ) := by
    push_cast
    ring
  have h2 : ((edge : ℤ) - 1).toNat = edge - 1 := by omega
  unfold encodeHotspotCoord
  rw [h1, round_intCast, h2, min_self]

/-- C2: the cursor directory entry encodes the hotspot by scaling the
normalized coordinate in `[0,1]` to `[0, edge_length-1]` with
round-to-nearest and clamping, so hotspot `(0,0)` serializes to `(0,0)`,
hotspot `(1,1)` serializes to `(edge_length-1, edge_length-1)`, and every
encoded coordinate lies in `[0, edge_length-1]`.  The serializer itself is
unimplemented in the source (TODO), so `encodeHotspot` is modelled from the
spec. -/
theorem claim2_cursor_hotspot_encoding (edge : ℕ) (_hedge : 1 ≤ edge) :
    encodeHotspot edge (0, 0) = (0, 0) ∧
    encodeHotspot edge (1, 1) = (edge - 1, edge - 1) ∧
    ∀ hs : Hotspot,
      (encodeHotspot edge hs).1 ≤ edge - 1 ∧ (encodeHotspot edge hs).2 ≤ edge - 1 := by
  refine ⟨?_, ?_, ?_⟩
  · simp [encodeHotspot, encodeHotspotCoord_zero]
  · simp [encodeHotspot, encodeHotspotCoord_one]
  · intro hs
    exact ⟨Nat.min_le_left _ _, Nat.min_le_left _ _⟩

/-- C2 witness: at edge length 32, hotspot `(0,0)` encodes to `(0,0)`,
hotspot `(1,1)` encodes to `(31,31)`, and every coordinate is clamped to
at most 31. -/
theorem claim2_witness :
    encodeHotspot 32 (0, 0) = (0, 0) ∧
    encodeHotspot 32 (1, 1) = (31, 31) ∧
    ∀ hs : Hotspot,
      (encodeHotspot 32 hs).1 ≤ 31 ∧ (encodeHotspot 32 hs).2 ≤ 31 :=
  claim2_cursor_hotspot_encoding 32 (by decide)

/-- C3: the hotspot recorded by a size declaration is the most recent value
set by a hotspot-X/hotspot-Y option earlier in the argument sequence
(threaded from the constructor-local `hotspot` that each `-s` handler
reads); since `pre` here is arbitrary, the same value applies to every
subsequent size declaration until a hotspot option changes it. -/
theorem claim3_hotspot_stateful_default (h0 : Hotspot) (pre : List Arg) (n : ℕ)
    (hok : (runArgs (initState h0) (pre ++ [Arg.size n])).2 = 0) :
    assocLookup (runArgs (initState h0) (pre ++ [Arg.size n])).1.outputSizes n
      = some (specCurrentHotspot h0 pre) := by
  rw [runArgs_append] at hok ⊢
  by_cases hp : (runArgs (initState h0) pre).2 = 0
  · rw [if_pos hp] at hok ⊢
    by_cases hb : 1 ≤ n ∧ n ≤ 256
    · simp only [runArgs, argStep, if_pos hb] at hok ⊢
      rw [assocLookup_update_self]
      rw [runArgs_hotspot pre (initState h0) hp]
      simp [initState]
    · simp [runArgs, argStep, if_neg hb] at hok
  · rw [if_neg hp] at hok
    exact absurd hok hp

/-- C3 witness: after `-x 1 -s 16 -y 1`, a later `-s 24` records hotspot
`(1, 1)`. -/
theorem claim3_witness :
    assocLookup
      (runArgs (initState (0, 0))
        ([Arg.hotspotX 1, Arg.size 16, Arg.hotspotY 1] ++ [Arg.size 24])).1.outputSizes
      24 = some (specCurrentHotspot (0, 0) [Arg.hotspotX 1, Arg.size 16, Arg.hotspotY 1]) :=
  claim3_hotspot_stateful_default (0, 0)
    [Arg.hotspotX 1, Arg.size 16, Arg.hotspotY 1] 24 (by decide)

/-- C1: the request set kept in `output_sizes_` is keyed by edge length
with last-write-wins overwrite semantics: for every argument sequence the
stored edge lengths are pairwise distinct, and the hotspot stored for an
edge length is the one recorded by its latest declaration (the hotspot in
effect at that point in the sequence). -/
theorem claim1_output_sizes_last_write_wins (h0 : Hotspot) (args : List Arg) :
    (((runArgs (initState h0) args).1.outputSizes).map Prod.fst).Nodup ∧
    ∀ pre n post, args = pre ++ Arg.size n :: post →
      (runArgs (initState h0) pre).2 = 0 →
      1 ≤ n ∧ n ≤ 256 →
      (∀ a ∈ post, a ≠ Arg.size n) →
      assocLookup (runArgs (initState h0) args).1.outputSizes n
        = some (specCurrentHotspot h0 pre) := by
  constructor
  · exact runArgs_sizes_nodup args (initState h0) (by simp [initState])
  · intro pre n post hsplit hpre hb hpost
    subst hsplit
    have hcons : pre ++ Arg.size n :: post = (pre ++ [Arg.size n]) ++ post := by
      simp
    have hstep : runArgs (initState h0) (pre ++ [Arg.size n])
        = ({ (runArgs (initState h0) pre).1 with
              outputSizes := assocUpdate (runArgs (initState h0) pre).1.outputSizes
                n (runArgs (initState h0) pre).1.hotspot }, 0) := by
      rw [runArgs_append, if_pos hpre]
      simp [runArgs, argStep, if_pos hb]
    rw [hcons, runArgs_append, hstep, if_pos rfl]
    rw [runArgs_sizes_lookup_preserved post _ n hpost]
    simp only [assocLookup_update_self]
    rw [runArgs_hotspot pre (initState h0) hpre]
    simp [initState]

/-- C1 witness: declaring size 16 twice with different hotspots in effect
leaves pairwise-distinct stored sizes, and the size-16 entry carries the
hotspot of the later declaration. -/
theorem claim1_witness :
    ((((runArgs (initState (0, 0))
        [Arg.hotspotX 0, Arg.size 16, Arg.hotspotX 1, Arg.size 16]).1.outputSizes).map
          Prod.fst).Nodup) ∧
    assocLookup
      (runArgs (initState (0, 0))
        [Arg.hotspotX 0, Arg.size 16, Arg.hotspotX 1, Arg.size 16]).1.outputSizes 16
      = some (specCurrentHotspot (0, 0) [Arg.hotspotX 0, Arg.size 16, Arg.hotspotX 1]) := by
  have h := claim1_output_sizes_last_write_wins (0, 0)
    [Arg.hotspotX 0, Arg.size 16, Arg.hotspotX 1, Arg.size 16]
  exact ⟨h.1, h.2 [Arg.hotspotX 0, Arg.size 16, Arg.hotspotX 1] 16 [] rfl (by decide)
    (by decide) (by simp)⟩

/-- The `Arg` that declares `path` with encoding hint `t` (`-i`, `-p`,
`-b`). -/
def inputDecl (p : String) : InputType → Arg
  | .automatic => .inputAuto p
  | .png => .inputPng p
  | .bitmap => .inputBmp p

theorem argStep_inputDecl (st : CtorState) (p : String) (t : InputType) :
    argStep st (inputDecl p t) = .ok { st with inputs := assocUpdate st.inputs p t } := by
  cases t <;> rfl

/-- C4 counterexample: declaring the same path twice (`-i p -p p`) stores a
single entry, not one entry per declaration: `inputs_` is a map keyed by
path, so the hint of the second declaration overwrites the first. -/
theorem claim4_counterexample :
    (runArgs (initState (0, 0)) [Arg.inputAuto "p", Arg.inputPng "p"]).1.inputs
      = [("p", InputType.png)] ∧
    ((runArgs (initState (0, 0)) [Arg.inputAuto "p", Arg.inputPng "p"]).1.inputs).length
      ≠ 2 := by
  constructor
  · rfl
  · decide

/-- C4 (amended): the CLI layer hands the engine the inputs as a collection
keyed by path: for every argument sequence the stored paths are pairwise
distinct, and each stored path carries the hint of its latest declaration
(not one entry per declaration). -/
theorem claim4_inputs_keyed_by_path (h0 : Hotspot) (args : List Arg) :
    (((runArgs (initState h0) args).1.inputs).map Prod.fst).Nodup ∧
    ∀ pre p t post, args = pre ++ inputDecl p t :: post →
      (runArgs (initState h0) pre).2 = 0 →
      (∀ a ∈ post, a ≠ Arg.inputAuto p ∧ a ≠ Arg.inputPng p ∧ a ≠ Arg.inputBmp p) →
      assocLookup (runArgs (initState h0) args).1.inputs p = some t := by
  constructor
  · exact runArgs_inputs_nodup args (initState h0) (by simp [initState])
  · intro pre p t post hsplit hpre hpost
    subst hsplit
    have hcons : pre ++ inputDecl p t :: post = (pre ++ [inputDecl p t]) ++ post := by
      simp
    have hstep : runArgs (initState h0) (pre ++ [inputDecl p t])
        = ({ (runArgs (initState h0) pre).1 with
              inputs := assocUpdate (runArgs (initState h0) pre).1.inputs p t }, 0) := by
      rw [runArgs_append, if_pos hpre]
      simp [runArgs, argStep_inputDecl]
    rw [hcons, runArgs_append, hstep, if_pos rfl]
    rw [runArgs_inputs_lookup_preserved post _ p hpost]
    simp only [assocLookup_update_self]

/-- C4 witness: after `-i a -p p -b a` the stored paths are distinct and
path "a" carries the hint of its later `-b` declaration. -/
theorem claim4_witness :
    ((((runArgs (initState (0, 0))
        [Arg.inputAuto "a", Arg.inputPng "p", Arg.inputBmp "a"]).1.inputs).map
          Prod.fst).Nodup) ∧
    assocLookup
      (runArgs (initState (0, 0))
        [Arg.inputAuto "a", Arg.inputPng "p", Arg.inputBmp "a"]).1.inputs "a"
      = some InputType.bitmap := by
  have h := claim4_inputs_keyed_by_path (0, 0)
    [Arg.inputAuto "a", Arg.inputPng "p", Arg.inputBmp "a"]
  exact ⟨h.1, h.2 [Arg.inputAuto "a", Arg.inputPng "p"] "a" InputType.bitmap [] rfl
    (by decide) (by simp)⟩

/-- C7: a size argument is accepted exactly when its value lies in 1..=256:
if processing succeeds past a size argument its value is in range, and an
out-of-range value makes the bounded parse throw, so the request is not
recorded and the constructor catches the exception with argument-parse
status 2. -/
theorem claim7_size_argument_bounds (h0 : Hotspot) (pre post : List Arg) (n : ℕ)
    (hpre : (runArgs (initState h0) pre).2 = 0) :
    ((runArgs (initState h0) (pre ++ Arg.size n :: post)).2 = 0 → 1 ≤ n ∧ n ≤ 256) ∧
    (¬(1 ≤ n ∧ n ≤ 256) →
      (construct h0 (pre ++ Arg.size n :: post)).status = 2 ∧
      (construct h0 (pre ++ Arg.size n :: post)).outputSizes
        = (runArgs (initState h0) pre).1.outputSizes) := by
  have hsplit : runArgs (initState h0) (pre ++ Arg.size n :: post)
      = runArgs (runArgs (initState h0) pre).1 (Arg.size n :: post) := by
    rw [runArgs_append, if_pos hpre]
  constructor
  · intro hok
    by_contra hb
    rw [hsplit] at hok
    simp [runArgs, argStep, if_neg hb] at hok
  · intro hb
    have hrun : runArgs (initState h0) (pre ++ Arg.size n :: post)
        = ((runArgs (initState h0) pre).1, 2) := by
      rw [hsplit]
      simp [runArgs, argStep, if_neg hb]
    constructor
    · simp [construct, hrun]
    · simp [construct, hrun]

/-- C7 witness: `-s 16` is accepted (16 is in range), while `-s 300` fails
argument parsing with status 2 and records no size-300 request. -/
theorem claim7_witness :
    (1 ≤ 16 ∧ 16 ≤ 256) ∧
    (construct (0, 0) [Arg.size 300]).status = 2 ∧
    (construct (0, 0) [Arg.size 300]).outputSizes = [] := by
  have h300 := (claim7_size_argument_bounds (0, 0) [] [] 300 (by decide)).2 (by decide)
  exact ⟨(claim7_size_argument_bounds (0, 0) [] [] 16 (by decide)).1 (by decide),
    h300.1, h300.2⟩

/-- C8: a hotspot-X or hotspot-Y argument is accepted exactly when its
value lies in `[0,1]`: an in-range value updates the corresponding hotspot
coordinate, while an out-of-range value makes the bounded parse throw
before the assignment, so the hotspot is not updated and the constructor
catches the exception with argument-parse status 2. -/
theorem claim8_hotspot_argument_bounds (h0 : Hotspot) (pre post : List Arg) (v : ℚ)
    (hpre : (runArgs (initState h0) pre).2 = 0) :
    (¬(0 ≤ v ∧ v ≤ 1) →
      ((construct h0 (pre ++ Arg.hotspotX v :: post)).status = 2 ∧
       (construct h0 (pre ++ Arg.hotspotX v :: post)).hotspot
         = (runArgs (initState h0) pre).1.hotspot) ∧
      ((construct h0 (pre ++ Arg.hotspotY v :: post)).status = 2 ∧
       (construct h0 (pre ++ Arg.hotspotY v :: post)).hotspot
         = (runArgs (initState h0) pre).1.hotspot)) ∧
    ((0 ≤ v ∧ v ≤ 1) →
      ((runArgs (initState h0) (pre ++ [Arg.hotspotX v])).2 = 0 ∧
       (runArgs (initState h0) (pre ++ [Arg.hotspotX v])).1.hotspot
         = (v, (runArgs (initState h0) pre).1.hotspot.2)) ∧
      ((runArgs (initState h0) (pre ++ [Arg.hotspotY v])).2 = 0 ∧
       (runArgs (initState h0) (pre ++ [Arg.hotspotY v])).1.hotspot
         = ((runArgs (initState h0) pre).1.hotspot.1, v))) := by
  constructor
  · intro hb
    have hrunX : runArgs (initState h0) (pre ++ Arg.hotspotX v :: post)
        = ((runArgs (initState h0) pre).1, 2) := by
      rw [runArgs_append, if_pos hpre]
      simp [runArgs, argStep, if_neg hb]
    have hrunY : runArgs (initState h0) (pre ++ Arg.hotspotY v :: post)
        = ((runArgs (initState h0) pre).1, 2) := by
      rw [runArgs_append, if_pos hpre]
      simp [runArgs, argStep, if_neg hb]
    refine ⟨⟨?_, ?_⟩, ⟨?_, ?_⟩⟩
    · simp [construct, hrunX]
    · simp [construct, hrunX]
    · simp [construct, hrunY]
    · simp [construct, hrunY]
  · intro hb
    have hrunX : runArgs (initState h0) (pre ++ [Arg.hotspotX v])
        = ({ (runArgs (initState h0) pre).1 with
              hotspot := (v, (runArgs (initState h0) pre).1.hotspot.2) }, 0) := by
      rw [runArgs_append, if_pos hpre]
      simp [runArgs, argStep, if_pos hb]
    have hrunY : runArgs (initState h0) (pre ++ [Arg.hotspotY v])
        = ({ (runArgs (initState h0) pre).1 with
              hotspot := ((runArgs (initState h0) pre).1.hotspot.1, v) }, 0) := by
      rw [runArgs_append, if_pos hpre]
      simp [runArgs, argStep, if_pos hb]
    refine ⟨⟨?_, ?_⟩, ⟨?_, ?_⟩⟩
    · rw [hrunX]
    · rw [hrunX]
    · rw [hrunY]
    · rw [hrunY]

/-- C8 witness: `-x 1` is accepted and sets the X coordinate, while `-x 2`
(and `-y 2`) fails argument parsing with status 2 and leaves the hotspot
unchanged. -/
theorem claim8_witness :
    ((construct (0, 0) [Arg.hotspotX 2]).status = 2 ∧
     (construct (0, 0) [Arg.hotspotX 2]).hotspot = (0, 0)) ∧
    ((runArgs (initState (0, 0)) [Arg.hotspotX 1]).2 = 0 ∧
     (runArgs (initState (0, 0)) [Arg.hotspotX 1]).1.hotspot = (1, 0)) := by
  have hrej := (claim8_hotspot_argument_bounds (0, 0) [] [] 2 (by decide)).1 (by decide)
  have hacc := (claim8_hotspot_argument_bounds (0, 0) [] [] 1 (by decide)).2 (by decide)
  exact ⟨hrej.1, hacc.1⟩

/-- C9: if argument parsing succeeds but no output path was given and
neither help nor version was requested, the constructor sets status 1 and
turns on both the help and version display flags, and `operator()` then
returns 1 immediately with no filesystem effect. -/
theorem claim9_missing_output_path (h0 : Hotspot) (args : List Arg) (w : World)
    (hok : (runArgs (initState h0) args).2 = 0)
    (hh : (runArgs (initState h0) args).1.showHelp = false)
    (hv : (runArgs (initState h0) args).1.showVersion = false)
    (hp : (runArgs (initState h0) args).1.outputPath = none) :
    (construct h0 args).status = 1 ∧
    (construct h0 args).showHelp = true ∧
    (construct h0 args).showVersion = true ∧
    runApp w (construct h0 args) = (1, construct h0 args, []) := by
  have hc : construct h0 args =
      { (runArgs (initState h0) args).1 with
          showHelp := true, showVersion := true, status := 1 } := by
    simp [construct, hok, hh, hv, hp]
  have h1 : (construct h0 args).status = 1 := by rw [hc]
  refine ⟨h1, by rw [hc], by rw [hc], ?_⟩
  rw [runApp_early w _ (by rw [h1]; exact one_ne_zero), h1]

/-- C9 witness: an empty argument list yields status 1 with help and
version display on, and the invocation returns 1 with no effects. -/
theorem claim9_witness :
    (construct (0, 0) ([] : List Arg)).status = 1 ∧
    (construct (0, 0) ([] : List Arg)).showHelp = true ∧
    (construct (0, 0) ([] : List Arg)).showVersion = true ∧
    runApp wGood (construct (0, 0) ([] : List Arg))
      = (1, construct (0, 0) ([] : List Arg), []) :=
  claim9_missing_output_path (0, 0) [] wGood (by decide) (by decide) (by decide)
    (by decide)

/-- C5: an input-path problem is reported per input and does not abort the
run: when no filesystem exception occurs, every input path is checked,
every bad path (missing or not a regular file) gets its own error report
even when earlier paths were bad, and the run still proceeds to the
output-path section (it logs the output path) instead of returning at the
first bad input. -/
theorem claim5_input_errors_reported_per_input (w : World) (st : CtorState)
    (out : String) (hst : st.status = 0) (hout : st.outputPath = some out)
    (hife : w.inputFsError = false) (hofe : w.outputFsError = false) :
    (∀ p t, (p, t) ∈ st.inputs → Eff.checkInput p ∈ (runApp w st).2.2) ∧
    (∀ p t, (p, t) ∈ st.inputs → badInput w p = true →
        Eff.reportInputError p ∈ (runApp w st).2.2) ∧
    Eff.logOutputPath (w.absolutize out) ∈ (runApp w st).2.2 := by
  have heff : (runApp w st).2.2
      = (inputLoop w st.inputs 0).2 ++
          (outputSection w out (inputLoop w st.inputs 0).1).2.2 :=
    runApp_effects_run w st out hst hout hife
  refine ⟨?_, ?_, ?_⟩
  · intro p t hmem
    rw [heff]
    apply List.mem_append_left
    rw [inputLoop_effects]
    apply List.mem_flatMap.mpr
    refine ⟨(p, t), hmem, ?_⟩
    by_cases hb : badInput w p <;> simp [hb]
  · intro p t hmem hbad
    rw [heff]
    apply List.mem_append_left
    rw [inputLoop_effects]
    apply List.mem_flatMap.mpr
    refine ⟨(p, t), hmem, ?_⟩
    simp [hbad]
  · rw [heff]
    exact List.mem_append_right _ (logOutputPath_mem_outputSection w out _ hofe)

/-- C5 witness: with inputs "a" (missing) and "b" (fine), the run checks
"b", reports the error for "a", and still logs the output path. -/
theorem claim5_witness :
    (Eff.checkInput "b" ∈
      (runApp wMissingA
        (construct (0, 0)
          [Arg.inputAuto "a", Arg.inputBmp "b", Arg.outputArg "o"])).2.2) ∧
    (Eff.reportInputError "a" ∈
      (runApp wMissingA
        (construct (0, 0)
          [Arg.inputAuto "a", Arg.inputBmp "b", Arg.outputArg "o"])).2.2) ∧
    (Eff.logOutputPath "o" ∈
      (runApp wMissingA
        (construct (0, 0)
          [Arg.inputAuto "a", Arg.inputBmp "b", Arg.outputArg "o"])).2.2) := by
  have h := claim5_input_errors_reported_per_input wMissingA
    (construct (0, 0) [Arg.inputAuto "a", Arg.inputBmp "b", Arg.outputArg "o"])
    "o" (by decide) (by decide) (by decide) (by decide)
  exact ⟨h.1 "b" InputType.bitmap (by decide),
    h.2.1 "a" InputType.automatic (by decide) (by decide), h.2.2⟩

/-- C6: the exit status follows the documented mapping: 2 when argument
parsing failed; 3 when an input path is missing or not a regular file (and
no later error overrides it); 4 when a filesystem exception is thrown while
reading inputs (and no later error overrides it); 5 when the output path
already exists and is not a regular file; 0 when no error occurred. -/
theorem claim6_exit_code_mapping (h0 : Hotspot) (args : List Arg) (w : World)
    (out : String) :
    ((runArgs (initState h0) args).2 = 2 → exitStatus h0 args w = 2) ∧
    ((construct h0 args).status = 0 → (construct h0 args).outputPath = some out →
      w.inputFsError = false → w.outputFsError = false →
      ((construct h0 args).inputs.any fun pt => badInput w pt.1) = true →
      (w.pathExists (w.absolutize out) = false ∨
        w.isRegularFile (w.absolutize out) = true) →
      exitStatus h0 args w = 3) ∧
    ((construct h0 args).status = 0 → (construct h0 args).outputPath = some out →
      w.inputFsError = true → w.outputFsError = false →
      (w.pathExists (w.absolutize out) = false ∨
        w.isRegularFile (w.absolutize out) = true) →
      exitStatus h0 args w = 4) ∧
    ((construct h0 args).status = 0 → (construct h0 args).outputPath = some out →
      w.outputFsError = false →
      w.pathExists (w.absolutize out) = true →
      w.isRegularFile (w.absolutize out) = false →
      exitStatus h0 args w = 5) ∧
    ((construct h0 args).status = 0 → (construct h0 args).outputPath = some out →
      w.inputFsError = false → w.outputFsError = false →
      ((construct h0 args).inputs.any fun pt => badInput w pt.1) = false →
      (w.pathExists (w.absolutize out) = false ∨
        w.isRegularFile (w.absolutize out) = true) →
      exitStatus h0 args w = 0) := by
  refine ⟨?_, ?_, ?_, ?_, ?_⟩
  · intro hpe
    have hc : (construct h0 args).status = 2 := by simp [construct, hpe]
    have hno : (construct h0 args).status ≠ 0 := by rw [hc]; decide
    show (runApp w (construct h0 args)).1 = 2
    rw [runApp_early w _ hno]
    exact hc
  · intro hst hout hife hofe hbad hok
    have hcond : ¬(w.pathExists (w.absolutize out) = true ∧
        w.isRegularFile (w.absolutize out) = false) := by
      rcases hok with h | h <;> simp [h]
    have hnife : ¬(w.inputFsError = true) := by simp [hife]
    show (runApp w (construct h0 args)).1 = 3
    rw [runApp_status_run w _ out hst hout, outputSection_status w out _ hofe,
      if_neg hcond, if_neg hnife, inputLoop_status, if_pos hbad]
  · intro hst hout hife hofe hok
    have hcond : ¬(w.pathExists (w.absolutize out) = true ∧
        w.isRegularFile (w.absolutize out) = false) := by
      rcases hok with h | h <;> simp [h]
    show (runApp w (construct h0 args)).1 = 4
    rw [runApp_status_run w _ out hst hout, outputSection_status w out _ hofe,
      if_neg hcond, if_pos hife]
  · intro hst hout hofe hex hreg
    show (runApp w (construct h0 args)).1 = 5
    rw [runApp_status_run w _ out hst hout, outputSection_status w out _ hofe,
      if_pos ⟨hex, hreg⟩]
  · intro hst hout hife hofe hgood hok
    have hcond : ¬(w.pathExists (w.absolutize out) = true ∧
        w.isRegularFile (w.absolutize out) = false) := by
      rcases hok with h | h <;> simp [h]
    have hnife : ¬(w.inputFsError = true) := by simp [hife]
    have hnbad : ¬(((construct h0 args).inputs.any fun pt => badInput w pt.1) = true) := by
      simp [hgood]
    show (runApp w (construct h0 args)).1 = 0
    rw [runApp_status_run w _ out hst hout, outputSection_status w out _ hofe,
      if_neg hcond, if_neg hnife, inputLoop_status, if_neg hnbad]

/-- C6 witness: five concrete runs, one per documented exit code: `-s 0`
fails parsing with 2; a missing input yields 3; a filesystem exception
while reading inputs yields 4; an output path that exists and is not a
regular file yields 5; a clean run yields 0. -/
theorem claim6_witness :
    exitStatus (0, 0) [Arg.size 0] wGood = 2 ∧
    exitStatus (0, 0) [Arg.inputAuto "a", Arg.outputArg "o"] wMissingA = 3 ∧
    exitStatus (0, 0) [Arg.inputAuto "a", Arg.outputArg "o"] wInputCrash = 4 ∧
    exitStatus (0, 0) [Arg.inputAuto "a", Arg.outputArg "o"] wOutputDir = 5 ∧
    exitStatus (0, 0) [Arg.inputAuto "a", Arg.outputArg "o"] wGood = 0 := by
  refine ⟨?_, ?_, ?_, ?_, ?_⟩
  · exact (claim6_exit_code_mapping (0, 0) [Arg.size 0] wGood "o").1 (by decide)
  · exact (claim6_exit_code_mapping (0, 0) [Arg.inputAuto "a", Arg.outputArg "o"]
      wMissingA "o").2.1 (by decide) (by decide) (by decide) (by decide) (by decide)
      (Or.inr (by decide))
  · exact (claim6_exit_code_mapping (0, 0) [Arg.inputAuto "a", Arg.outputArg "o"]
      wInputCrash "o").2.2.1 (by decide) (by decide) (by decide) (by decide)
      (Or.inr (by decide))
  · exact (claim6_exit_code_mapping (0, 0) [Arg.inputAuto "a", Arg.outputArg "o"]
      wOutputDir "o").2.2.2.1 (by decide) (by decide) (by decide) (by decide)
      (by decide)
  · exact (claim6_exit_code_mapping (0, 0) [Arg.inputAuto "a", Arg.outputArg "o"]
      wGood "o").2.2.2.2 (by decide) (by decide) (by decide) (by decide) (by decide)
      (Or.inr (by decide))

end Concur
